import Mathlib

set_option maxRecDepth 200000

/-!
Verification development for the CSV ingestion and normalization pipeline
(`src/app.py`): the ingestion orchestrator `read_csv_robust`, the type
inference engine `infer_types`, and the schema normalizer described in the
specification.

Byte buffers are `List Nat` (each entry one byte), decoded text is
`List Char`.  The external tabular parser (`pd.read_csv`) is modelled as an
abstract environment `ParseEnv`; the text decoders (`bytes.decode`) are
implemented concretely, since their success/failure behaviour is what the
fallback chain branches on.
-/

/-- The four candidate text encodings tried by `read_csv_robust`, in order. -/
inductive Encoding where
  | utf8
  | utf8sig
  | cp1252
  | latin1
deriving DecidableEq, Repr

/-- Holds for a legal UTF-8 continuation byte. -/
def contOk (b : Nat) : Bool := 0x80 ≤ b && b ≤ 0xBF

/-- Strict UTF-8 decoding of a byte list (Python `bytes.decode("utf-8")`):
rejects overlong forms, surrogates and out-of-range lead bytes. -/
def utf8Decode : List Nat → Option (List Char)
  | [] => some []
  | b :: rest =>
    if b < 0x80 then
      (utf8Decode rest).map (fun cs => Char.ofNat b :: cs)
    else if b < 0xC2 then none
    else if b ≤ 0xDF then
      match rest with
      | b2 :: rest2 =>
        if contOk b2 then
          (utf8Decode rest2).map (fun cs =>
            Char.ofNat ((b - 0xC0) * 0x40 + (b2 - 0x80)) :: cs)
        else none
      | [] => none
    else if b ≤ 0xEF then
      match rest with
      | b2 :: b3 :: rest3 =>
        if (if b = 0xE0 then decide (0xA0 ≤ b2 && b2 ≤ 0xBF)
            else if b = 0xED then decide (0x80 ≤ b2 && b2 ≤ 0x9F)
            else contOk b2) && contOk b3 then
          (utf8Decode rest3).map (fun cs =>
            Char.ofNat ((b - 0xE0) * 0x1000 + (b2 - 0x80) * 0x40 + (b3 - 0x80)) :: cs)
        else none
      | _ => none
    else if b ≤ 0xF4 then
      match rest with
      | b2 :: b3 :: b4 :: rest4 =>
        if (if b = 0xF0 then decide (0x90 ≤ b2 && b2 ≤ 0xBF)
            else if b = 0xF4 then decide (0x80 ≤ b2 && b2 ≤ 0x8F)
            else contOk b2) && contOk b3 && contOk b4 then
          (utf8Decode rest4).map (fun cs =>
            Char.ofNat ((b - 0xF0) * 0x40000 + (b2 - 0x80) * 0x1000 +
              (b3 - 0x80) * 0x40 + (b4 - 0x80)) :: cs)
        else none
      | _ => none
    else none

/-- UTF-8 with optional byte-order mark (Python `"utf-8-sig"`). -/
def utf8SigDecode : List Nat → Option (List Char)
  | 0xEF :: 0xBB :: 0xBF :: rest => utf8Decode rest
  | bs => utf8Decode bs

/-- Windows-1252 decoding of a single byte; the five bytes left undefined by
the code page (0x81, 0x8D, 0x8F, 0x90, 0x9D) fail, as in Python's strict
`"cp1252"` codec. -/
def cp1252Byte (b : Nat) : Option Char :=
  if b < 0x80 then some (Char.ofNat b)
  else if 0xA0 ≤ b then some (Char.ofNat b)
  else
    match b with
    | 0x80 => some (Char.ofNat 0x20AC)
    | 0x82 => some (Char.ofNat 0x201A)
    | 0x83 => some (Char.ofNat 0x0192)
    | 0x84 => some (Char.ofNat 0x201E)
    | 0x85 => some (Char.ofNat 0x2026)
    | 0x86 => some (Char.ofNat 0x2020)
    | 0x87 => some (Char.ofNat 0x2021)
    | 0x88 => some (Char.ofNat 0x02C6)
    | 0x89 => some (Char.ofNat 0x2030)
    | 0x8A => some (Char.ofNat 0x0160)
    | 0x8B => some (Char.ofNat 0x2039)
    | 0x8C => some (Char.ofNat 0x0152)
    | 0x8E => some (Char.ofNat 0x017D)
    | 0x91 => some (Char.ofNat 0x2018)
    | 0x92 => some (Char.ofNat 0x2019)
    | 0x93 => some (Char.ofNat 0x201C)
    | 0x94 => some (Char.ofNat 0x201D)
    | 0x95 => some (Char.ofNat 0x2022)
    | 0x96 => some (Char.ofNat 0x2013)
    | 0x97 => some (Char.ofNat 0x2014)
    | 0x98 => some (Char.ofNat 0x02DC)
    | 0x99 => some (Char.ofNat 0x2122)
    | 0x9A => some (Char.ofNat 0x0161)
    | 0x9B => some (Char.ofNat 0x203A)
    | 0x9C => some (Char.ofNat 0x0153)
    | 0x9E => some (Char.ofNat 0x017E)
    | 0x9F => some (Char.ofNat 0x0178)
    | _ => none

/-- Dispatch to the decoder for one encoding candidate.  Latin-1 is total:
every byte maps to the code point of the same value. -/
def decodeEnc : Encoding → List Nat → Option (List Char)
  | .utf8, bs => utf8Decode bs
  | .utf8sig, bs => utf8SigDecode bs
  | .cp1252, bs => bs.mapM cp1252Byte
  | .latin1, bs => some (bs.map fun b => Char.ofNat b)

/-- A parsed table: the headers and the rows of raw string cells
(the spec's RawTable). -/
structure RawTable where
  headers : List String
  rows : List (List String)
deriving DecidableEq, Repr

/-- The external tabular parser (`pd.read_csv` with `engine="python"`,
`on_bad_lines="skip"`), abstracted: automatic delimiter detection
(`sep=None`) and parsing with one explicit delimiter, each either producing
a table or failing with an error of type `ε`. -/
structure ParseEnv (ε : Type) where
  parseAuto : List Char → Except ε RawTable
  parseSep : Char → List Char → Except ε RawTable

/-- An error recorded by the fallback chain: either a decode error for one
encoding candidate, or an error raised by a parse attempt. -/
inductive IngestErr (ε : Type) where
  | decodeErr (enc : Encoding)
  | parseErr (e : ε)
deriving DecidableEq, Repr

/-- The explicit delimiters tried after auto-detection fails, in order
(line 35 of `app.py`). -/
def sepChars : List Char := [',', ';', '\t', '|']

/-- The inner fallback loop of `read_csv_robust` (lines 35-47): try each
explicit delimiter in order on the decoded text, returning the first
successful table, else the last error observed. -/
def trySeps {ε : Type} (env : ParseEnv ε) (text : List Char) :
    List Char → IngestErr ε → Except (IngestErr ε) RawTable
  | [], lastErr => .error lastErr
  | c :: cs, _ =>
    match env.parseSep c text with
    | .ok df => .ok df
    | .error e => trySeps env text cs (.parseErr e)

/-- The outer fallback loop of `read_csv_robust` (lines 15-47): for each
encoding, decode (skipping the encoding on decode failure), then try
auto-detection, then the explicit delimiters; carry the last error. -/
def tryEncs {ε : Type} (env : ParseEnv ε) (content : List Nat) :
    List Encoding → Option (IngestErr ε) → Except (Option (IngestErr ε)) RawTable
  | [], lastErr => .error lastErr
  | enc :: rest, _ =>
    match decodeEnc enc content with
    | none => tryEncs env content rest (some (.decodeErr enc))
    | some text =>
      match env.parseAuto text with
      | .ok df => .ok df
      | .error e =>
        match trySeps env text sepChars (.parseErr e) with
        | .ok df => .ok df
        | .error e2 => tryEncs env content rest (some e2)

/-- The encoding candidates in priority order (line 13 of `app.py`). -/
def encodings : List Encoding := [.utf8, .utf8sig, .cp1252, .latin1]

/-- The function `read_csv_robust` (lines 9-49 of `app.py`): run the fallback chain over
all encodings starting with no recorded error; on total exhaustion the
`RuntimeError` carries the last recorded error. -/
def read_csv_robust {ε : Type} (env : ParseEnv ε) (content : List Nat) :
    Except (Option (IngestErr ε)) RawTable :=
  tryEncs env content encodings none

/-- A delimiter candidate as the spec describes it: auto-detection or one
explicit separator character. -/
inductive DelimSpec where
  | auto
  | sep (c : Char)
deriving DecidableEq, Repr

/-- Spec-side: the five delimiter attempts under one encoding. -/
def attemptsFor (enc : Encoding) : List (Encoding × DelimSpec) :=
  (enc, .auto) :: sepChars.map (fun c => (enc, .sep c))

/-- Spec-side: the flat attempt list generated by a list of encodings. -/
def encAttempts : List Encoding → List (Encoding × DelimSpec)
  | [] => []
  | e :: t => attemptsFor e ++ encAttempts t

/-- Spec-side, from the spec's words: the full (encoding × delimiter)
candidate list in the exact priority order of sections 4.1/4.3 of the spec:
per encoding, auto-detect first, then comma, semicolon, tab, pipe; encodings
UTF-8, UTF-8-with-BOM, Windows-1252, Latin-1. -/
def specAttempts : List (Encoding × DelimSpec) :=
  [(.utf8, .auto), (.utf8, .sep ','), (.utf8, .sep ';'), (.utf8, .sep '\t'), (.utf8, .sep '|'),
   (.utf8sig, .auto), (.utf8sig, .sep ','), (.utf8sig, .sep ';'), (.utf8sig, .sep '\t'),
   (.utf8sig, .sep '|'),
   (.cp1252, .auto), (.cp1252, .sep ','), (.cp1252, .sep ';'), (.cp1252, .sep '\t'),
   (.cp1252, .sep '|'),
   (.latin1, .auto), (.latin1, .sep ','), (.latin1, .sep ';'), (.latin1, .sep '\t'),
   (.latin1, .sep '|')]

/-- Spec-side: the outcome of one single (encoding, delimiter) attempt. -/
def runAttempt {ε : Type} (env : ParseEnv ε) (content : List Nat)
    (a : Encoding × DelimSpec) : Except (IngestErr ε) RawTable :=
  match decodeEnc a.1 content with
  | none => .error (.decodeErr a.1)
  | some text =>
    match a.2 with
    | .auto =>
      match env.parseAuto text with
      | .ok t => .ok t
      | .error e => .error (.parseErr e)
    | .sep c =>
      match env.parseSep c text with
      | .ok t => .ok t
      | .error e => .error (.parseErr e)

/-- Spec-side, from the spec's words: run the attempts in list order,
return the result of the first success, and on exhaustion fail with the
most recently observed error. -/
def specFirstSuccess {ε : Type} (env : ParseEnv ε) (content : List Nat) :
    List (Encoding × DelimSpec) → Option (IngestErr ε) →
      Except (Option (IngestErr ε)) RawTable
  | [], lastErr => .error lastErr
  | a :: rest, _ =>
    match runAttempt env content a with
    | .ok t => .ok t
    | .error e => specFirstSuccess env content rest (some e)

/-- The error carried by a failed computation, if any. -/
def errorOf {α β : Type} : Except α β → Option α
  | .error e => some e
  | .ok _ => none

/-- Holds exactly on successful results. -/
def isOkE {α β : Type} : Except α β → Bool
  | .ok _ => true
  | .error _ => false

/-- Holds exactly on errors recorded by a parse attempt (never a decode
attempt). -/
def isParseErrE {ε : Type} : IngestErr ε → Bool
  | .parseErr _ => true
  | .decodeErr _ => false

/-- Holds on an ASCII decimal digit (the regex class `\d` on the data at
hand). -/
def isDigitCh (c : Char) : Bool := '0' ≤ c && c ≤ '9'

/-- Holds on an ASCII letter (the regex class `[A-Za-z]`). -/
def isAlphaCh (c : Char) : Bool := ('a' ≤ c && c ≤ 'z') || ('A' ≤ c && c ≤ 'Z')

/-- Holds on a whitespace character (the regex class `\s` on ASCII). -/
def isSpaceCh (c : Char) : Bool :=
  c == ' ' || c == '\t' || c == '\n' || c == '\r' || c == '\x0B' || c == '\x0C'

/-- Holds on the date separators dash and slash. -/
def isSepCh (c : Char) : Bool := c == '-' || c == '/'

/-- Consume exactly `n` characters satisfying `p`, returning the remainder. -/
def dropExactP (p : Char → Bool) : Nat → List Char → Option (List Char)
  | 0, l => some l
  | n + 1, c :: t => if p c then dropExactP p n t else none
  | _ + 1, [] => none

/-- A match of the first regex alternative
`\d{1,4}[-∕]\d{1,2}[-∕]\d{1,4}` starts at the head of the list. -/
def matchNumericDate (l : List Char) : Bool :=
  [1, 2, 3, 4].any fun a =>
    match dropExactP isDigitCh a l with
    | some (s1 :: r1) =>
      isSepCh s1 &&
      ([1, 2].any fun b =>
        match dropExactP isDigitCh b r1 with
        | some (s2 :: r2) =>
          isSepCh s2 &&
          (match r2 with
           | d :: _ => isDigitCh d
           | [] => false)
        | _ => false)
    | _ => false

/-- At least one whitespace character, then at least two digits, start the
list (the tail `\s+\d{2,4}` of the second regex alternative). -/
def wsThenTwoDigits (r : List Char) : Bool :=
  (match r with
   | c :: _ => isSpaceCh c
   | [] => false) &&
  (match r.dropWhile isSpaceCh with
   | d1 :: d2 :: _ => isDigitCh d1 && isDigitCh d2
   | _ => false)

/-- A match of the second regex alternative
`[A-Za-z]{3,9}\s+\d{1,2},?\s+\d{2,4}` starts at the head of the list. -/
def matchMonthDate (l : List Char) : Bool :=
  [3, 4, 5, 6, 7, 8, 9].any fun a =>
    match dropExactP isAlphaCh a l with
    | some r1 =>
      (match r1 with
       | c1 :: _ => isSpaceCh c1
       | [] => false) &&
      ([1, 2].any fun b =>
        match dropExactP isDigitCh b (r1.dropWhile isSpaceCh) with
        | some r3 =>
          (match r3 with
           | ',' :: r4 => wsThenTwoDigits r4
           | _ => false) || wsThenTwoDigits r3
        | none => false)
    | none => false

/-- The predicate `p` holds on some suffix of the list. -/
def anySuffix (p : List Char → Bool) : List Char → Bool
  | [] => p []
  | c :: t => p (c :: t) || anySuffix p t

/-- The date-shape test of line 64-67 of `app.py`: unanchored search of
`\d{1,4}[-∕]\d{1,2}[-∕]\d{1,4}|[A-Za-z]{3,9}\s+\d{1,2},?\s+\d{2,4}`
(`Series.str.contains`), rendered as: some suffix starts a match of one of
the two alternatives. -/
def containsDateShape (s : String) : Bool :=
  anySuffix (fun l => matchNumericDate l || matchMonthDate l) s.data

/-- A parsed numeric value, kept as an exact decimal `mant / 10 ^ scale`
(the embedding of the float values produced by `pd.to_numeric`; exact
arithmetic in place of binary floating point). -/
structure DecNum where
  mant : Int
  scale : Nat
deriving DecidableEq, Repr

/-- The modulo-one test `x % 1 == 0` of line 84 of `app.py`: the decimal
has no fractional remainder. -/
def DecNum.isWhole (d : DecNum) : Bool := d.mant % ((10 : Int) ^ d.scale) == 0

/-- The integer cast `astype("Int64")` of line 85 of `app.py` on one
value: pandas safe-casts, raising `TypeError: cannot safely cast
non-equivalent float64 to int64` when the value lies outside the Int64
range, so the cast of a (whole) value yields `none` exactly when it does
not fit in a signed 64-bit integer. -/
def DecNum.toInt64? (d : DecNum) : Option Int :=
  let v := d.mant / ((10 : Int) ^ d.scale)
  if -(2 ^ 63) ≤ v ∧ v < 2 ^ 63 then some v else none

/-- The rational value of the decimal. -/
def DecNum.toRat (d : DecNum) : ℚ := (d.mant : ℚ) / (10 : ℚ) ^ d.scale

/-- The external cell parsers of the Type Inference Engine, abstracted:
`pd.to_datetime` on one cell (dates as opaque timestamps) and
`pd.to_numeric` on one cell, each returning `none` on parse failure
(`errors="coerce"`). -/
structure InferEnv where
  parseDate : String → Option Nat
  parseNum : String → Option DecNum

/-- A typed column: raw strings, or the result of one of the two
conversion passes.  Missing cells stay `none`. -/
inductive Col where
  | strCol (cells : List (Option String))
  | dateCol (cells : List (Option Nat))
  | intCol (cells : List (Option Int))
  | floatCol (cells : List (Option DecNum))
deriving DecidableEq, Repr

/-- A data frame: named columns in order. -/
structure DataFrame where
  cols : List (String × Col)
deriving DecidableEq, Repr

/-- The number of cells of a column. -/
def colLen : Col → Nat
  | .strCol c => c.length
  | .dateCol c => c.length
  | .intCol c => c.length
  | .floatCol c => c.length

/-- The thousands-separator stripping of lines 76-81 of `app.py`: remove
every comma and every space from the cell. -/
def stripNumSeps (s : String) : String :=
  String.mk (s.data.filter (fun c => !(c == ',' || c == ' ')))

/-- The date pass of lines 60-72 of `app.py`, on one string column: sample
the first 500 non-missing cells; if the date-shape match rate exceeds 0.5
(`2 * matches > size`, the exact form of `mean > 0.5`), parse the whole
column and convert when at least 0.8 of all cells parse
(`5 * parsed ≥ 4 * size`, the exact form of `notna().mean() >= 0.8`;
missing cells parse to `NaT` and count against the ratio).  Returns the
column and whether it was converted. -/
def datePassCol (env : InferEnv) (cells : List (Option String)) : Col × Bool :=
  let sample := (cells.filterMap id).take 500
  if sample.isEmpty then (.strCol cells, false)
  else if sample.length < 2 * sample.countP containsDateShape then
    let parsed := cells.map (fun c => c.bind env.parseDate)
    if 4 * cells.length ≤ 5 * parsed.countP Option.isSome then
      (.dateCol parsed, true)
    else (.strCol cells, false)
  else (.strCol cells, false)

/-- The date pass over the frame's columns: only string (`object`) columns
are examined; a note `"<col> -> datetime"` is recorded per conversion. -/
def datePassCols (env : InferEnv) : List (String × Col) → List (String × Col) × List String
  | [] => ([], [])
  | (name, Col.strCol cells) :: t =>
    let r := datePassCol env cells
    let rest := datePassCols env t
    ((name, r.1) :: rest.1, (if r.2 then [name ++ " -> datetime"] else []) ++ rest.2)
  | (name, c) :: t =>
    let rest := datePassCols env t
    ((name, c) :: rest.1, rest.2)

/-- The error the Type Inference Engine can raise: the safe integer cast
of line 85 of `app.py` rejected a value outside the Int64 range. -/
inductive InferErr where
  | castError
deriving DecidableEq, Repr

/-- The cast of one cell of the `astype("Int64")` conversion: a missing
cell stays missing (`NaN` becomes `<NA>` without raising); a value must
fit in Int64. -/
def castCell : Option DecNum → Option (Option Int)
  | none => some none
  | some d => (d.toInt64?).map some

/-- The cast of a whole column (line 85 of `app.py`): succeeds only when
every non-missing cell fits in Int64, keeping each cell at its position;
one out-of-range cell makes the whole cast raise. -/
def castCells : List (Option DecNum) → Option (List (Option Int))
  | [] => some []
  | o :: t =>
    match castCell o with
    | none => none
    | some i => (castCells t).map (fun rest => i :: rest)

/-- The numeric pass of lines 74-89 of `app.py`, on one string column:
strip separators, parse every cell (missing cells stay failed, as
`astype(str)` turns them into `"nan"`, which `to_numeric` coerces back to
`NaN`); when the column is non-empty and at least 0.8 of all cells parse
(`5 * parsed ≥ 4 * size`, the exact form of `notna().mean() >= 0.8`, which
is false on an empty column), convert to integers when every parsed value
is whole — a conversion that raises when some whole value is outside the
Int64 range — else to floats.  Returns the column and
`some true` / `some false` / `none` for integer / float / no conversion,
or the cast error. -/
def numericPassCol (env : InferEnv) (cells : List (Option String)) :
    Except InferErr (Col × Option Bool) :=
  let coerced := cells.map (fun c => c.bind (fun s => env.parseNum (stripNumSeps s)))
  if 0 < cells.length ∧ 4 * cells.length ≤ 5 * coerced.countP Option.isSome then
    if (coerced.filterMap id).all DecNum.isWhole then
      match castCells coerced with
      | some ints => .ok (.intCol ints, some true)
      | none => .error .castError
    else .ok (.floatCol coerced, some false)
  else .ok (.strCol cells, none)

/-- The numeric pass over the frame's columns: only columns still string
(`object`) after the date pass are examined; notes `"<col> -> integer"` and
`"<col> -> float"` are recorded per conversion; the first column whose
integer cast raises aborts the pass (columns are visited left to right, as
in the source loop). -/
def numericPassCols (env : InferEnv) :
    List (String × Col) → Except InferErr (List (String × Col) × List String)
  | [] => .ok ([], [])
  | (name, Col.strCol cells) :: t =>
    match numericPassCol env cells with
    | .error e => .error e
    | .ok r =>
      match numericPassCols env t with
      | .error e => .error e
      | .ok rest =>
        .ok ((name, r.1) :: rest.1,
          (match r.2 with
           | some true => [name ++ " -> integer"]
           | some false => [name ++ " -> float"]
           | none => []) ++ rest.2)
  | (name, c) :: t =>
    match numericPassCols env t with
    | .error e => .error e
    | .ok rest => .ok ((name, c) :: rest.1, rest.2)

/-- The function `infer_types` (lines 51-91 of `app.py`): the date pass, then the
numeric pass on the result, with the conversion notes of both passes in
order; an integer-cast error of the numeric pass propagates out as the
raised exception does in the source. -/
def infer_types (env : InferEnv) (df : DataFrame) :
    Except InferErr (DataFrame × List String) :=
  let p1 := datePassCols env df.cols
  match numericPassCols env p1.1 with
  | .error e => .error e
  | .ok p2 => .ok (⟨p2.1⟩, p1.2 ++ p2.2)

/-- Leading and trailing whitespace removed (header trimming). -/
def trimChars (l : List Char) : List Char :=
  ((l.dropWhile isSpaceCh).reverse.dropWhile isSpaceCh).reverse

/-- ASCII lower-casing of one character. -/
def lowerChar (c : Char) : Char :=
  if 'A' ≤ c && c ≤ 'Z' then Char.ofNat (c.toNat + 32) else c

/-- A header lower-cased and trimmed, as a character list. -/
def normHeader (h : String) : List Char := (trimChars h.data).map lowerChar

/-- The needle occurs as a contiguous subsequence of the haystack. -/
def hasSubSeq (needle hay : List Char) : Bool :=
  anySuffix (fun suf => needle.isPrefixOf suf) hay

/-- The five canonical column roles of the OHLC schema. -/
inductive Role where
  | dateRole
  | openRole
  | highRole
  | lowRole
  | closeRole
deriving DecidableEq, Repr

/-- Modelled from the spec: the Schema Normalizer's per-header predicate
list (§4.5; the component is absent from `src/`, only described by the
spec).  The header is lower-cased and trimmed, then the canonical-role
predicates are tested in fixed priority: contains "date" → DateTime;
starts with "open" → Open; "high" → High; "low" → Low; "close" → Close;
the first matching predicate wins, and a header matching none is left
unmapped. -/
def roleOf (h : String) : Option Role :=
  let s := normHeader h
  if hasSubSeq "date".data s then some .dateRole
  else if List.isPrefixOf "open".data s then some .openRole
  else if List.isPrefixOf "high".data s then some .highRole
  else if List.isPrefixOf "low".data s then some .lowRole
  else if List.isPrefixOf "close".data s then some .closeRole
  else none

/-- Modelled from the spec: fold over the headers left to right, assigning
each header its role unless that role was already taken by an earlier
header (leftmost wins; later colliding headers stay unmapped). -/
def assignRoles : List String → List Role → List (String × Role)
  | [], _ => []
  | h :: t, used =>
    match roleOf h with
    | some r => if r ∈ used then assignRoles t used else (h, r) :: assignRoles t (r :: used)
    | none => assignRoles t used

/-- Modelled from the spec: the Schema Normalizer's ColumnRoleMap for a
header row, as the list of (header, role) assignments in header order. -/
def normalize_headers (headers : List String) : List (String × Role) :=
  assignRoles headers []

/-- The numeric value of an ASCII digit. -/
def digitVal (c : Char) : Nat := c.toNat - '0'.toNat

/-- The natural number written by a digit list (most significant first). -/
def digitsToNat (l : List Char) : Nat :=
  l.foldl (fun acc c => 10 * acc + digitVal c) 0

/-- Oracle instance used for concrete inputs: `pd.to_datetime` restricted
to plain ISO `YYYY-MM-DD` strings (month 1-12, day 1-28, which covers every
concrete date used below); everything else fails.  The timestamp value is
the date packed as `yyyymmdd`. -/
def isoDateParse (s : String) : Option Nat :=
  match s.data with
  | [y1, y2, y3, y4, '-', m1, m2, '-', d1, d2] =>
    if (isDigitCh y1 && isDigitCh y2 && isDigitCh y3 && isDigitCh y4) &&
       (isDigitCh m1 && isDigitCh m2 && isDigitCh d1 && isDigitCh d2) then
      let m := 10 * digitVal m1 + digitVal m2
      let d := 10 * digitVal d1 + digitVal d2
      if (1 ≤ m && m ≤ 12) && (1 ≤ d && d ≤ 28) then
        some (10000 * digitsToNat [y1, y2, y3, y4] + 100 * m + d)
      else none
    else none
  | _ => none

/-- Oracle instance used for concrete inputs: `pd.to_numeric` restricted to
plain signed decimal literals `[+-]?digits[.digits]`; everything else
fails. -/
def parseDecimal (s : String) : Option DecNum :=
  let signAndDigits : Int × List Char :=
    match s.data with
    | '-' :: t => (-1, t)
    | '+' :: t => (1, t)
    | t => (1, t)
  let sign := signAndDigits.1
  let l := signAndDigits.2
  let intPart := l.takeWhile isDigitCh
  let rest := l.dropWhile isDigitCh
  if intPart.isEmpty then none
  else
    match rest with
    | [] => some ⟨sign * (digitsToNat intPart : Int), 0⟩
    | '.' :: fracPart =>
      if !fracPart.isEmpty && fracPart.all isDigitCh then
        some ⟨sign * (digitsToNat (intPart ++ fracPart) : Int), fracPart.length⟩
      else none
    | _ => none

/-- The inference environment built from the two oracle instances. -/
def envIso : InferEnv := ⟨isoDateParse, parseDecimal⟩

/-- Spec-side: a ratio of counts as an exact rational (`num / den`; `0`
when the denominator is `0`). -/
def frac (num den : Nat) : ℚ := (num : ℚ) / (den : ℚ)

/-- Spec-side: the non-missing cells of a raw string column. -/
def nonMissing (cells : List (Option String)) : List String := cells.filterMap id

/-- Spec-side: the sample of up to the first 500 non-missing cells. -/
def sampleOf (cells : List (Option String)) : List String := (nonMissing cells).take 500

/-- Spec-side, from the spec's words (§4.4): the date-shape sample test
passes when the sample is non-empty and strictly more than 0.5 of it
matches the date-shape pattern. -/
def ShapeTestPasses (cells : List (Option String)) : Prop :=
  sampleOf cells ≠ [] ∧ frac ((sampleOf cells).countP containsDateShape) (sampleOf cells).length > 1/2

/-- Spec-side: the fraction of ALL cells of the column that parse as dates
(missing cells count as parse failures). -/
def dateParseFracAll (env : InferEnv) (cells : List (Option String)) : ℚ :=
  frac ((cells.map (fun c => c.bind env.parseDate)).countP Option.isSome) cells.length

/-- Spec-side, the claim's criterion: the fraction of the NON-MISSING cells
of the column that parse as dates. -/
def dateParseFracNonMissing (env : InferEnv) (cells : List (Option String)) : ℚ :=
  frac ((nonMissing cells).countP (fun s => (env.parseDate s).isSome)) (nonMissing cells).length

/-- Spec-side: the parsed numeric cells of a column, separators stripped
first. -/
def numParsed (env : InferEnv) (cells : List (Option String)) : List (Option DecNum) :=
  cells.map (fun c => c.bind (fun s => env.parseNum (stripNumSeps s)))

/-- Spec-side: the fraction of ALL cells of the column that parse as
numbers after separator stripping (missing cells count as failures). -/
def numParseFracAll (env : InferEnv) (cells : List (Option String)) : ℚ :=
  frac ((numParsed env cells).countP Option.isSome) cells.length

/-- Spec-side, the claim's criterion: the fraction of the NON-MISSING cells
that parse as numbers after separator stripping. -/
def numParseFracNonMissing (env : InferEnv) (cells : List (Option String)) : ℚ :=
  frac ((nonMissing cells).countP (fun s => (env.parseNum (stripNumSeps s)).isSome))
    (nonMissing cells).length

/-- Spec-side: the parsed value is a whole number (no fractional
remainder). -/
def IsWholeNum (d : DecNum) : Prop := ∃ n : ℤ, d.toRat = (n : ℚ)

/-- The column of claim C1's counterexample: five ISO dates then five
missing cells. -/
def cellsC1 : List (Option String) :=
  List.replicate 5 (some "2020-01-01") ++ List.replicate 5 none

/-- A one-column frame holding `cellsC1`. -/
def dfC1 : DataFrame := ⟨[("d", .strCol cellsC1)]⟩

/-- The column of claim C2's counterexample: five copies of "1" then five
missing cells. -/
def cellsC2 : List (Option String) :=
  List.replicate 5 (some "1") ++ List.replicate 5 none

/-- A one-column frame holding `cellsC2`. -/
def dfC2 : DataFrame := ⟨[("n", .strCol cellsC2)]⟩

/-- The integer example column of the spec: `["1,234", "2,500", "100"]`. -/
def cellsInt : List (Option String) := [some "1,234", some "2,500", some "100"]

/-- The float example column of the spec: `["1,234.5", "2,500", "100"]`. -/
def cellsFloat : List (Option String) := [some "1,234.5", some "2,500", some "100"]

/-- A parse environment in which every attempt fails (auto-detection with
error code 0, an explicit delimiter with its character code). -/
def envAllFail : ParseEnv Nat := ⟨fun _ => .error 0, fun c _ => .error c.toNat⟩

/-- A parse environment modelling `pd.read_csv` on a header-only CSV: the
text `"a,b\n"` auto-parses to a table with headers and zero data rows. -/
def envHeaderOnly : ParseEnv Nat :=
  ⟨fun _ => .ok ⟨["a", "b"], []⟩, fun _ _ => .error 1⟩

/-- The byte buffer of the header-only CSV `"a,b\n"`. -/
def bytesHeaderOnly : List Nat := [97, 44, 98, 10]

/-- A byte buffer that both UTF-8 decoders reject (a lone continuation
byte). -/
def bytesFF : List Nat := [0xFF]

/-- The effect of the date pass on one column of any type (non-string
columns are untouched). -/
def dateColTop (env : InferEnv) : Col → Col
  | .strCol cells => (datePassCol env cells).1
  | c => c

/-- The effect of the numeric pass on one column of any type (non-string
columns are untouched; a string column inherits the pass's possible cast
error). -/
def numColTopE (env : InferEnv) : Col → Except InferErr Col
  | .strCol cells => (numericPassCol env cells).map Prod.fst
  | c => .ok c

/-- How an output column of `infer_types` derives from the input column at
the same position: either unchanged, or a string column rewritten by a
positionwise map of its cells — every cell parsed as a date, every cell
parsed as a number after separator stripping, or those numbers cast
cell-by-cell to Int64.  In each case cell `i` of the output comes from
cell `i` of the input, so rows keep their count and order. -/
def ColDerived (env : InferEnv) (c c' : Col) : Prop :=
  c' = c ∨
  ∃ cells, c = Col.strCol cells ∧
    (c' = Col.dateCol (cells.map (fun x => x.bind env.parseDate)) ∨
     c' = Col.floatCol (numParsed env cells) ∨
     ∃ ints, castCells (numParsed env cells) = some ints ∧ c' = Col.intCol ints)

/-- The column of claim C8's counterexample: one 20-digit numeral, which
parses as a number, is whole, and lies outside the Int64 range. -/
def cellsHuge : List (Option String) := [some "12345678901234567890"]

/-- A one-column frame holding `cellsHuge`. -/
def dfHuge : DataFrame := ⟨[("i", .strCol cellsHuge)]⟩

/-- The spec's 1000-cell example column: 850 ISO dates then 150 missing
cells. -/
def bigDateCells : List (Option String) :=
  List.replicate 850 (some "2020-01-01") ++ List.replicate 150 none

/-- A one-column frame holding `bigDateCells`. -/
def dfBig : DataFrame := ⟨[("d", .strCol bigDateCells)]⟩

/-- The parsed form of `bigDateCells` under the ISO oracle. -/
def bigParsedCells : List (Option Nat) :=
  List.replicate 850 (some 20200101) ++ List.replicate 150 none

/-- Exact-arithmetic form of the strict majority test: for a non-empty
population, `count / len > 1/2` over ℚ is `len < 2 * count` over ℕ. -/
theorem frac_gt_half_iff (c l : Nat) (h : l ≠ 0) : frac c l > 1/2 ↔ l < 2 * c := by
  unfold frac
  have hl : (0 : ℚ) < (l : ℚ) := by exact_mod_cast Nat.pos_of_ne_zero h
  rw [gt_iff_lt, div_lt_div_iff₀ (by norm_num) hl]
  rw [show (1 : ℚ) * (l : ℚ) = ((l : Nat) : ℚ) by ring]
  rw [show ((c : ℚ)) * 2 = ((2 * c : Nat) : ℚ) by push_cast; ring]
  exact Nat.cast_lt

/-- Exact-arithmetic form of the conversion threshold: for a non-empty
population, `count / len ≥ 4/5` over ℚ is `4 * len ≤ 5 * count` over ℕ. -/
theorem frac_ge_iff (c l : Nat) (h : l ≠ 0) : frac c l ≥ 4/5 ↔ 4 * l ≤ 5 * c := by
  unfold frac
  have hl : (0 : ℚ) < (l : ℚ) := by exact_mod_cast Nat.pos_of_ne_zero h
  rw [ge_iff_le, div_le_div_iff₀ (by norm_num) hl]
  rw [show (4 : ℚ) * (l : ℚ) = ((4 * l : Nat) : ℚ) by push_cast; ring]
  rw [show ((c : ℚ)) * 5 = ((5 * c : Nat) : ℚ) by push_cast; ring]
  exact Nat.cast_le

/-- The modulo-one test agrees with whole-numberhood of the decimal's
value. -/
theorem isWhole_iff (d : DecNum) : d.isWhole = true ↔ IsWholeNum d := by
  unfold DecNum.isWhole IsWholeNum DecNum.toRat
  rw [beq_iff_eq]
  constructor
  · intro h
    obtain ⟨n, hn⟩ := Int.dvd_iff_emod_eq_zero.mpr h
    refine ⟨n, ?_⟩
    rw [hn]
    push_cast
    rw [mul_comm, mul_div_assoc, div_self (by positivity), mul_one]
  · rintro ⟨n, hn⟩
    have h10 : ((10 : ℚ)) ^ d.scale ≠ 0 := by positivity
    rw [div_eq_iff h10] at hn
    have hz : d.mant = n * 10 ^ d.scale := by exact_mod_cast hn
    rw [hz]
    exact Int.mul_emod_left n _

/-- When an encoding fails to decode, each of its five flat attempts fails
with the same decode error, so the carried last error is unchanged. -/
theorem firstSuccess_skip_decode {ε : Type} (env : ParseEnv ε) (content : List Nat)
    (enc : Encoding) (h : decodeEnc enc content = none) :
    ∀ (cs : List Char) (rest : List (Encoding × DelimSpec)),
      specFirstSuccess env content (cs.map (fun c => (enc, DelimSpec.sep c)) ++ rest)
        (some (.decodeErr enc)) =
      specFirstSuccess env content rest (some (.decodeErr enc)) := by
  intro cs
  induction cs with
  | nil => intro rest; rfl
  | cons c cs ih =>
    intro rest
    simp only [List.map_cons, List.cons_append, specFirstSuccess, runAttempt, h]
    exact ih rest

/-- When an encoding decodes, its four explicit-delimiter flat attempts
agree with the inner loop `trySeps`. -/
theorem firstSuccess_seps {ε : Type} (env : ParseEnv ε) (content : List Nat)
    (enc : Encoding) (text : List Char) (h : decodeEnc enc content = some text) :
    ∀ (cs : List Char) (e0 : IngestErr ε) (rest : List (Encoding × DelimSpec)),
      specFirstSuccess env content (cs.map (fun c => (enc, DelimSpec.sep c)) ++ rest)
        (some e0) =
      (match trySeps env text cs e0 with
       | .ok t => .ok t
       | .error e2 => specFirstSuccess env content rest (some e2)) := by
  intro cs
  induction cs with
  | nil => intro e0 rest; rfl
  | cons c cs ih =>
    intro e0 rest
    simp only [List.map_cons, List.cons_append, specFirstSuccess, runAttempt, h, trySeps]
    cases hp : env.parseSep c text with
    | ok t => rfl
    | error e => exact ih (.parseErr e) rest

/-- Unfolding equation: one flat attempt, then the rest. -/
theorem specFirstSuccess_cons {ε : Type} (env : ParseEnv ε) (content : List Nat)
    (a : Encoding × DelimSpec) (l : List (Encoding × DelimSpec))
    (le : Option (IngestErr ε)) :
    specFirstSuccess env content (a :: l) le =
      (match runAttempt env content a with
       | .ok t => .ok t
       | .error e => specFirstSuccess env content l (some e)) := rfl

/-- Unfolding equation: one encoding candidate, then the rest. -/
theorem tryEncs_cons {ε : Type} (env : ParseEnv ε) (content : List Nat)
    (enc : Encoding) (rest : List Encoding) (le : Option (IngestErr ε)) :
    tryEncs env content (enc :: rest) le =
      (match decodeEnc enc content with
       | none => tryEncs env content rest (some (.decodeErr enc))
       | some text =>
         match env.parseAuto text with
         | .ok df => .ok df
         | .error e =>
           match trySeps env text sepChars (.parseErr e) with
           | .ok df => .ok df
           | .error e2 => tryEncs env content rest (some e2)) := rfl

/-- The flat attempt list generated by a list of encodings, run in order
with first success returned and last error carried, is exactly the nested
fallback loop of the code. -/
theorem firstSuccess_encs {ε : Type} (env : ParseEnv ε) (content : List Nat) :
    ∀ (l : List Encoding) (le : Option (IngestErr ε)),
      specFirstSuccess env content (encAttempts l) le = tryEncs env content l le := by
  intro l
  induction l with
  | nil => intro le; rfl
  | cons enc rest ih =>
    intro le
    rw [show encAttempts (enc :: rest) =
      (enc, DelimSpec.auto) :: (sepChars.map (fun c => (enc, DelimSpec.sep c)) ++
        encAttempts rest) from rfl]
    rw [specFirstSuccess_cons, tryEncs_cons]
    cases hd : decodeEnc enc content with
    | none =>
      rw [show runAttempt env content (enc, DelimSpec.auto) = .error (.decodeErr enc) from by
        unfold runAttempt
        rw [hd]]
      dsimp only
      rw [firstSuccess_skip_decode env content enc hd]
      exact ih _
    | some text =>
      dsimp only
      rw [show runAttempt env content (enc, DelimSpec.auto) =
          (match env.parseAuto text with
           | .ok t => .ok t
           | .error e => .error (.parseErr e)) from by
        unfold runAttempt
        rw [hd]]
      cases hp : env.parseAuto text with
      | ok t => rfl
      | error e =>
        dsimp only
        rw [firstSuccess_seps env content enc text hd]
        cases ht : trySeps env text sepChars (.parseErr e) with
        | ok t => rfl
        | error e2 =>
          dsimp only
          exact ih _

/-- The function `read_csv_robust` is the first-success run of the full flat candidate
list. -/
theorem read_eq_spec {ε : Type} (env : ParseEnv ε) (content : List Nat) :
    read_csv_robust env content = specFirstSuccess env content specAttempts none := by
  rw [show specAttempts = encAttempts encodings from rfl, firstSuccess_encs]
  rfl

/-- C3: for every byte buffer, the Ingestion Orchestrator attempts
(encoding, delimiter) candidate pairs in the exact priority order —
encodings UTF-8 strict, UTF-8-with-BOM, Windows-1252, Latin-1, and under
each encoding auto-detection first, then comma, semicolon, tab, pipe —
advancing to the next encoding only after all delimiter attempts under the
current one fail, and returns the result of the first successful attempt:
`read_csv_robust` coincides with the first-success run of the flat
priority-ordered candidate list `specAttempts`. -/
theorem c3_attempt_order {ε : Type} (env : ParseEnv ε) (content : List Nat) :
    read_csv_robust env content = specFirstSuccess env content specAttempts none :=
  read_eq_spec env content

/-- If every attempt of a list fails and the one appended attempt fails
with error `e`, the first-success run of the whole list fails with `e`. -/
theorem firstSuccess_append_fail {ε : Type} (env : ParseEnv ε) (content : List Nat) :
    ∀ (l : List (Encoding × DelimSpec)) (le : Option (IngestErr ε))
      (a : Encoding × DelimSpec) (e : IngestErr ε),
      (∀ x ∈ l, isOkE (runAttempt env content x) = false) →
      runAttempt env content a = .error e →
      specFirstSuccess env content (l ++ [a]) le = .error (some e) := by
  intro l
  induction l with
  | nil =>
    intro le a e _ ha
    rw [List.nil_append, specFirstSuccess_cons, ha]
    rfl
  | cons x l ih =>
    intro le a e hall ha
    have hx := hall x (List.mem_cons_self x l)
    rw [List.cons_append, specFirstSuccess_cons]
    cases hrx : runAttempt env content x with
    | ok t => rw [hrx] at hx; simp [isOkE] at hx
    | error ex =>
      dsimp only
      exact ih _ a e (fun y hy => hall y (List.mem_cons_of_mem x hy)) ha

/-- A successful first-success run returns the raw output of one of the
attempts of the list. -/
theorem firstSuccess_ok_mem {ε : Type} (env : ParseEnv ε) (content : List Nat) :
    ∀ (l : List (Encoding × DelimSpec)) (le : Option (IngestErr ε)) (t : RawTable),
      specFirstSuccess env content l le = .ok t →
      ∃ a ∈ l, runAttempt env content a = .ok t := by
  intro l
  induction l with
  | nil => intro le t h; exact absurd h (by simp [specFirstSuccess])
  | cons a l ih =>
    intro le t h
    rw [specFirstSuccess_cons] at h
    cases hra : runAttempt env content a with
    | ok t' =>
      rw [hra] at h
      dsimp only at h
      injection h with ht
      exact ⟨a, List.mem_cons_self a l, by rw [hra, ht]⟩
    | error e =>
      rw [hra] at h
      dsimp only at h
      obtain ⟨b, hb, hrb⟩ := ih _ t h
      exact ⟨b, List.mem_cons_of_mem a hb, hrb⟩

/-- C4 (counterexample): on the header-only CSV `"a,b\n"` — an input on
which the parser produces a table with two headers and zero rows — the
Orchestrator returns that zero-row table instead of treating it as a parse
failure, so the returned table is not non-empty. -/
theorem c4_counterexample :
    read_csv_robust envHeaderOnly bytesHeaderOnly = .ok ⟨["a", "b"], []⟩ ∧
    (RawTable.mk ["a", "b"] []).rows.length = 0 :=
  ⟨rfl, rfl⟩

/-- C4 (amended): the Orchestrator returns the raw output of the first
successful (encoding, delimiter) attempt with no row-count or column-count
check; any table a successful attempt produces — including one with zero
rows — is returned as is. -/
theorem c4_returns_first_success {ε : Type} (env : ParseEnv ε) (content : List Nat)
    (t : RawTable) (h : read_csv_robust env content = .ok t) :
    ∃ a ∈ specAttempts, runAttempt env content a = .ok t := by
  rw [read_eq_spec] at h
  exact firstSuccess_ok_mem env content specAttempts none t h

/-- Witness for C4: the header-only input instantiates the amended claim. -/
theorem c4_witness :
    ∃ a ∈ specAttempts, runAttempt envHeaderOnly bytesHeaderOnly a = .ok ⟨["a", "b"], []⟩ :=
  c4_returns_first_success envHeaderOnly bytesHeaderOnly ⟨["a", "b"], []⟩ rfl

/-- C5: when every (encoding, delimiter) attempt fails, `read_csv_robust`
fails, and the error it carries is the error of the chronologically last
attempt — Latin-1 with the pipe delimiter — not the first. -/
theorem c5_last_error {ε : Type} (env : ParseEnv ε) (content : List Nat)
    (h : ∀ a ∈ specAttempts, isOkE (runAttempt env content a) = false) :
    read_csv_robust env content =
      .error (errorOf (runAttempt env content (Encoding.latin1, DelimSpec.sep '|'))) := by
  have hsplit : specAttempts =
      specAttempts.dropLast ++ [(Encoding.latin1, DelimSpec.sep '|')] := by decide
  have hlast := h (Encoding.latin1, DelimSpec.sep '|') (by decide)
  cases he : runAttempt env content (Encoding.latin1, DelimSpec.sep '|') with
  | ok t => rw [he] at hlast; simp [isOkE] at hlast
  | error e =>
    rw [read_eq_spec, hsplit]
    rw [firstSuccess_append_fail env content specAttempts.dropLast none _ e ?_ he]
    · rfl
    · intro x hx
      refine h x ?_
      rw [hsplit]
      exact List.mem_append_left _ hx

/-- Witness for C5: with a parser that fails on every attempt and an input
whose first two encodings fail to decode, the final error is the pipe
attempt's error under Latin-1. -/
theorem c5_witness :
    (∀ a ∈ specAttempts, isOkE (runAttempt envAllFail bytesFF a) = false) ∧
    read_csv_robust envAllFail bytesFF =
      .error (errorOf (runAttempt envAllFail bytesFF (Encoding.latin1, DelimSpec.sep '|'))) :=
  ⟨by decide, c5_last_error envAllFail bytesFF (by decide)⟩

/-- C9: the Orchestrator is deterministic — identical byte buffers yield
identical results (the embedding of `read_csv_robust` is a pure function of
the byte content; the source's only state, the memoization decorator,
returns the cached identical result). -/
theorem c9_deterministic {ε : Type} (env : ParseEnv ε) (c1 c2 : List Nat)
    (h : c1 = c2) :
    read_csv_robust env c1 = read_csv_robust env c2 := by rw [h]

/-- Witness for C9 at a concrete byte buffer. -/
theorem c9_witness :
    read_csv_robust envHeaderOnly bytesHeaderOnly =
      read_csv_robust envHeaderOnly bytesHeaderOnly :=
  c9_deterministic envHeaderOnly bytesHeaderOnly bytesHeaderOnly rfl

/-- The inner delimiter loop started from a parse error can only end in a
parse error. -/
theorem trySeps_err_shape {ε : Type} (env : ParseEnv ε) (text : List Char) :
    ∀ (cs : List Char) (e0 e2 : IngestErr ε),
      isParseErrE e0 = true → trySeps env text cs e0 = .error e2 →
      isParseErrE e2 = true := by
  intro cs
  induction cs with
  | nil =>
    intro e0 e2 h0 h
    injection h with he
    rw [← he]; exact h0
  | cons c cs ih =>
    intro e0 e2 h0 h
    rw [show trySeps env text (c :: cs) e0 =
        (match env.parseSep c text with
         | .ok df => .ok df
         | .error e => trySeps env text cs (.parseErr e)) from rfl] at h
    cases hp : env.parseSep c text with
    | ok t => rw [hp] at h; exact absurd h (by simp)
    | error e =>
      rw [hp] at h
      exact ih (.parseErr e) e2 rfl h

/-- An error outcome of the fallback chain with one more encoding in front
is an error outcome of the chain without it (only the carried error
changes). -/
theorem tryEncs_cons_err {ε : Type} (env : ParseEnv ε) (content : List Nat)
    (enc : Encoding) (rest : List Encoding) (le oe : Option (IngestErr ε))
    (h : tryEncs env content (enc :: rest) le = .error oe) :
    ∃ le', tryEncs env content rest le' = .error oe := by
  rw [tryEncs_cons] at h
  cases hd : decodeEnc enc content with
  | none =>
    rw [hd] at h
    exact ⟨_, h⟩
  | some text =>
    rw [hd] at h
    dsimp only at h
    cases hp : env.parseAuto text with
    | ok t => rw [hp] at h; exact absurd h (by simp)
    | error e =>
      rw [hp] at h
      dsimp only at h
      cases ht : trySeps env text sepChars (.parseErr e) with
      | ok t => rw [ht] at h; exact absurd h (by simp)
      | error e2 =>
        rw [ht] at h
        exact ⟨_, h⟩

/-- Under Latin-1 alone the fallback chain can only fail with a parse
error: Latin-1 decoding is total, so the recorded error comes from the
parse attempts. -/
theorem tryEncs_latin1_err {ε : Type} (env : ParseEnv ε) (content : List Nat)
    (le oe : Option (IngestErr ε))
    (h : tryEncs env content [Encoding.latin1] le = .error oe) :
    ∃ e, oe = some (IngestErr.parseErr e) := by
  rw [tryEncs_cons] at h
  rw [show decodeEnc Encoding.latin1 content =
      some (content.map fun b => Char.ofNat b) from rfl] at h
  dsimp only at h
  cases hp : env.parseAuto (content.map fun b => Char.ofNat b) with
  | ok t => rw [hp] at h; exact absurd h (by simp)
  | error e =>
    rw [hp] at h
    dsimp only at h
    cases ht : trySeps env (content.map fun b => Char.ofNat b) sepChars (.parseErr e) with
    | ok t => rw [ht] at h; exact absurd h (by simp)
    | error e2 =>
      rw [ht] at h
      dsimp only at h
      injection h with hoe
      have hshape := trySeps_err_shape env _ sepChars (.parseErr e) e2 rfl ht
      cases e2 with
      | decodeErr enc => simp [isParseErrE] at hshape
      | parseErr e3 => exact ⟨e3, by rw [← hoe]⟩

/-- C10: decoding always succeeds under the last candidate encoding —
Latin-1 maps every byte sequence to text — so the decode stage alone can
never exhaust the fallback chain, and when the Orchestrator fails, the
attached last error always comes from a delimiter-parse attempt, never
from a decode attempt. -/
theorem c10_error_from_parse :
    (∀ content : List Nat, (decodeEnc Encoding.latin1 content).isSome = true) ∧
    (∀ (ε : Type) (env : ParseEnv ε) (content : List Nat) (oe : Option (IngestErr ε)),
      read_csv_robust env content = .error oe →
      ∃ e, oe = some (IngestErr.parseErr e)) := by
  constructor
  · intro content; rfl
  · intro ε env content oe h
    rw [show read_csv_robust env content =
        tryEncs env content [.utf8, .utf8sig, .cp1252, .latin1] none from rfl] at h
    obtain ⟨le1, h1⟩ := tryEncs_cons_err env content _ _ _ _ h
    obtain ⟨le2, h2⟩ := tryEncs_cons_err env content _ _ _ _ h1
    obtain ⟨le3, h3⟩ := tryEncs_cons_err env content _ _ _ _ h2
    exact tryEncs_latin1_err env content le3 oe h3

/-- Witness for C10: the concrete all-fail run ends in the pipe parse
error, and Latin-1 decodes the input that UTF-8 rejects. -/
theorem c10_witness :
    (decodeEnc Encoding.latin1 bytesFF).isSome = true ∧
    ∃ e, (some (IngestErr.parseErr 124) : Option (IngestErr Nat)) =
      some (IngestErr.parseErr e) :=
  ⟨c10_error_from_parse.1 bytesFF,
   c10_error_from_parse.2 Nat envAllFail bytesFF (some (IngestErr.parseErr 124)) rfl⟩

/-- The date pass rewrites each column independently: position `j` of the
result holds the date-pass image of position `j` of the input. -/
theorem datePassCols_get? (env : InferEnv) :
    ∀ (l : List (String × Col)) (j : Nat),
      (datePassCols env l).1.get? j = (l.get? j).map (fun p => (p.1, dateColTop env p.2)) := by
  intro l
  induction l with
  | nil => intro j; simp [datePassCols]
  | cons p t ih =>
    intro j
    obtain ⟨name, c⟩ := p
    cases c <;> cases j <;>
      simp only [datePassCols, dateColTop, List.get?_cons_zero, List.get?_cons_succ,
        Option.map_some'] <;>
      first
        | rfl
        | exact ih _

/-- A successful column cast preserves the cell count. -/
theorem castCells_length :
    ∀ (l : List (Option DecNum)) (ints : List (Option Int)),
      castCells l = some ints → ints.length = l.length := by
  intro l
  induction l with
  | nil =>
    intro ints h
    simp only [castCells] at h
    injection h with h'
    rw [← h']
    rfl
  | cons o t ih =>
    intro ints h
    simp only [castCells] at h
    cases hc : castCell o with
    | none => rw [hc] at h; exact absurd h (by simp)
    | some i =>
      rw [hc] at h
      cases hr : castCells t with
      | none => rw [hr] at h; exact absurd h (by simp)
      | some rest =>
        rw [hr] at h
        simp only [Option.map_some'] at h
        injection h with h'
        rw [← h']
        simp [ih rest hr]

/-- Inversion of a successful numeric pass on one column: the result is the
unchanged string column, the floats, or the Int64 cast of the floats. -/
theorem numericPassCol_ok_cases (env : InferEnv) (cells : List (Option String))
    (c : Col) (nb : Option Bool) (h : numericPassCol env cells = .ok (c, nb)) :
    c = Col.strCol cells ∨ c = Col.floatCol (numParsed env cells) ∨
    ∃ ints, castCells (numParsed env cells) = some ints ∧ c = Col.intCol ints := by
  unfold numericPassCol at h
  dsimp only at h
  by_cases h1 : 0 < cells.length ∧ 4 * cells.length ≤
      5 * (cells.map (fun c => c.bind (fun s => env.parseNum (stripNumSeps s)))).countP
        Option.isSome
  · rw [if_pos h1] at h
    by_cases h2 : ((cells.map (fun c => c.bind (fun s =>
        env.parseNum (stripNumSeps s)))).filterMap id).all DecNum.isWhole = true
    · rw [if_pos h2] at h
      cases hc : castCells (cells.map (fun c => c.bind (fun s =>
          env.parseNum (stripNumSeps s)))) with
      | some ints =>
        rw [hc] at h
        injection h with h'
        right; right
        exact ⟨ints, hc, (congrArg Prod.fst h').symm⟩
      | none => rw [hc] at h; exact absurd h (by simp)
    · rw [if_neg h2] at h
      injection h with h'
      right; left
      exact (congrArg Prod.fst h').symm
  · rw [if_neg h1] at h
    injection h with h'
    left
    exact (congrArg Prod.fst h').symm

/-- A successful numeric pass never produces a datetime column. -/
theorem numericPassCol_ok_ne_date (env : InferEnv) (cells : List (Option String))
    (c : Col) (nb : Option Bool) (h : numericPassCol env cells = .ok (c, nb))
    (dcells : List (Option Nat)) : c ≠ Col.dateCol dcells := by
  rcases numericPassCol_ok_cases env cells c nb h with h1 | h1 | ⟨ints, _, h1⟩ <;>
    subst h1 <;> simp

/-- The numeric pass converts to integers when the threshold passes, every
parsed value is whole, and the Int64 cast of the column succeeds. -/
theorem numericPassCol_int (env : InferEnv) (cells : List (Option String))
    (ints : List (Option Int))
    (hc : 0 < cells.length ∧ numParseFracAll env cells ≥ 4/5)
    (hw : ∀ d ∈ (numParsed env cells).filterMap id, IsWholeNum d)
    (hcast : castCells (numParsed env cells) = some ints) :
    numericPassCol env cells = .ok (Col.intCol ints, some true) := by
  unfold numericPassCol
  dsimp only
  rw [if_pos ⟨hc.1, (frac_ge_iff _ _ (Nat.pos_iff_ne_zero.mp hc.1)).mp hc.2⟩]
  have hall : ((cells.map (fun c => c.bind fun s => env.parseNum (stripNumSeps s))).filterMap
      id).all DecNum.isWhole = true :=
    List.all_eq_true.mpr (fun d hd => (isWhole_iff d).mpr (hw d hd))
  rw [if_pos hall]
  rw [show castCells (cells.map (fun c => c.bind fun s => env.parseNum (stripNumSeps s))) =
      some ints from hcast]

/-- The numeric pass raises when the threshold passes, every parsed value
is whole, but some whole value lies outside the Int64 range. -/
theorem numericPassCol_castErr (env : InferEnv) (cells : List (Option String))
    (hc : 0 < cells.length ∧ numParseFracAll env cells ≥ 4/5)
    (hw : ∀ d ∈ (numParsed env cells).filterMap id, IsWholeNum d)
    (hcast : castCells (numParsed env cells) = none) :
    numericPassCol env cells = .error InferErr.castError := by
  unfold numericPassCol
  dsimp only
  rw [if_pos ⟨hc.1, (frac_ge_iff _ _ (Nat.pos_iff_ne_zero.mp hc.1)).mp hc.2⟩]
  have hall : ((cells.map (fun c => c.bind fun s => env.parseNum (stripNumSeps s))).filterMap
      id).all DecNum.isWhole = true :=
    List.all_eq_true.mpr (fun d hd => (isWhole_iff d).mpr (hw d hd))
  rw [if_pos hall]
  rw [show castCells (cells.map (fun c => c.bind fun s => env.parseNum (stripNumSeps s))) =
      none from hcast]

/-- The numeric pass converts to floats when the threshold passes and some
parsed value is fractional. -/
theorem numericPassCol_float (env : InferEnv) (cells : List (Option String))
    (hc : 0 < cells.length ∧ numParseFracAll env cells ≥ 4/5)
    (hnw : ¬ ∀ d ∈ (numParsed env cells).filterMap id, IsWholeNum d) :
    numericPassCol env cells = .ok (Col.floatCol (numParsed env cells), some false) := by
  unfold numericPassCol
  dsimp only
  rw [if_pos ⟨hc.1, (frac_ge_iff _ _ (Nat.pos_iff_ne_zero.mp hc.1)).mp hc.2⟩]
  have hneg : ¬ ((cells.map (fun c => c.bind fun s => env.parseNum (stripNumSeps s))).filterMap
      id).all DecNum.isWhole = true := by
    intro hall
    exact hnw (fun d hd => (isWhole_iff d).mp (List.all_eq_true.mp hall d hd))
  rw [if_neg hneg]
  rfl

/-- The numeric pass leaves the column as strings when the threshold
fails. -/
theorem numericPassCol_skip (env : InferEnv) (cells : List (Option String))
    (hc : ¬ (0 < cells.length ∧ numParseFracAll env cells ≥ 4/5)) :
    numericPassCol env cells = .ok (Col.strCol cells, none) := by
  unfold numericPassCol
  dsimp only
  rw [if_neg]
  rintro ⟨hpos, hle⟩
  exact hc ⟨hpos, (frac_ge_iff _ _ (Nat.pos_iff_ne_zero.mp hpos)).mpr hle⟩

/-- A successful numeric pass never changes a column's cell count. -/
theorem colLen_numericPassCol_ok (env : InferEnv) (cells : List (Option String))
    (c : Col) (nb : Option Bool) (h : numericPassCol env cells = .ok (c, nb)) :
    colLen c = cells.length := by
  rcases numericPassCol_ok_cases env cells c nb h with h1 | h1 | ⟨ints, hcast, h1⟩ <;> subst h1
  · rfl
  · simp [colLen, numParsed]
  · rw [show colLen (Col.intCol ints) = ints.length from rfl, castCells_length _ _ hcast]
    simp [numParsed]

/-- A successful numeric pass preserves the cell count of any column. -/
theorem colLen_numColTopE (env : InferEnv) (c c' : Col)
    (h : numColTopE env c = .ok c') : colLen c' = colLen c := by
  cases c with
  | strCol cells =>
    simp only [numColTopE] at h
    cases hn : numericPassCol env cells with
    | error e => rw [hn] at h; exact absurd h (by simp [Except.map])
    | ok r =>
      rw [hn] at h
      obtain ⟨c0, nb⟩ := r
      simp only [Except.map] at h
      injection h with h'
      rw [← h']
      exact colLen_numericPassCol_ok env cells c0 nb hn
  | dateCol d =>
    simp only [numColTopE] at h
    injection h with h'
    rw [← h']
  | intCol d =>
    simp only [numColTopE] at h
    injection h with h'
    rw [← h']
  | floatCol d =>
    simp only [numColTopE] at h
    injection h with h'
    rw [← h']

/-- Inversion of the numeric pass on a string column: a successful overall
result comes from a successful per-column pass. -/
theorem numColTopE_str_ok (env : InferEnv) (cells : List (Option String)) (c' : Col)
    (h : numColTopE env (Col.strCol cells) = .ok c') :
    ∃ nb, numericPassCol env cells = .ok (c', nb) := by
  simp only [numColTopE] at h
  cases hn : numericPassCol env cells with
  | error e => rw [hn] at h; exact absurd h (by simp [Except.map])
  | ok r =>
    rw [hn] at h
    obtain ⟨c0, nb⟩ := r
    simp only [Except.map] at h
    injection h with h'
    exact ⟨nb, by rw [h']⟩

/-- A successful numeric pass keeps the header names in order. -/
theorem numericPassCols_ok_fst (env : InferEnv) :
    ∀ (l : List (String × Col)) (r : List (String × Col) × List String),
      numericPassCols env l = .ok r → r.1.map Prod.fst = l.map Prod.fst := by
  intro l
  induction l with
  | nil =>
    intro r h
    injection h with h'
    rw [← h']
  | cons p t ih =>
    intro r h
    obtain ⟨name, c⟩ := p
    cases c with
    | strCol cells =>
      unfold numericPassCols at h
      cases hn : numericPassCol env cells with
      | error e => rw [hn] at h; exact absurd h (by simp)
      | ok r0 =>
        rw [hn] at h
        dsimp only at h
        cases hr : numericPassCols env t with
        | error e => rw [hr] at h; exact absurd h (by simp)
        | ok rest =>
          rw [hr] at h
          dsimp only at h
          injection h with h'
          rw [← h']
          simp [ih rest hr]
    | dateCol d =>
      unfold numericPassCols at h
      cases hr : numericPassCols env t with
      | error e => rw [hr] at h; exact absurd h (by simp)
      | ok rest =>
        rw [hr] at h
        dsimp only at h
        injection h with h'
        rw [← h']
        simp [ih rest hr]
    | intCol d =>
      unfold numericPassCols at h
      cases hr : numericPassCols env t with
      | error e => rw [hr] at h; exact absurd h (by simp)
      | ok rest =>
        rw [hr] at h
        dsimp only at h
        injection h with h'
        rw [← h']
        simp [ih rest hr]
    | floatCol d =>
      unfold numericPassCols at h
      cases hr : numericPassCols env t with
      | error e => rw [hr] at h; exact absurd h (by simp)
      | ok rest =>
        rw [hr] at h
        dsimp only at h
        injection h with h'
        rw [← h']
        simp [ih rest hr]

/-- A successful numeric pass rewrites each column independently: position
`j` of the result holds a successful per-column image of position `j` of
the input. -/
theorem numericPassCols_ok_get? (env : InferEnv) :
    ∀ (l : List (String × Col)) (r : List (String × Col) × List String),
      numericPassCols env l = .ok r →
      ∀ (j : Nat) (name : String) (c : Col), l.get? j = some (name, c) →
      ∃ c', numColTopE env c = .ok c' ∧ r.1.get? j = some (name, c') := by
  intro l
  induction l with
  | nil => intro r h j name c hj; simp at hj
  | cons p t ih =>
    intro r h j name c hj
    obtain ⟨name0, c0⟩ := p
    cases c0 with
    | strCol cells =>
      unfold numericPassCols at h
      cases hn : numericPassCol env cells with
      | error e => rw [hn] at h; exact absurd h (by simp)
      | ok r0 =>
        rw [hn] at h
        dsimp only at h
        cases hr : numericPassCols env t with
        | error e => rw [hr] at h; exact absurd h (by simp)
        | ok rest =>
          rw [hr] at h
          dsimp only at h
          injection h with h'
          cases j with
          | zero =>
            rw [List.get?_cons_zero] at hj
            injection hj with hj'
            obtain ⟨c1, nb⟩ := r0
            refine ⟨c1, ?_, ?_⟩
            · rw [show c = Col.strCol cells from (congrArg Prod.snd hj').symm]
              simp only [numColTopE]
              rw [hn]
              rfl
            · rw [← h', List.get?_cons_zero,
                show name = name0 from (congrArg Prod.fst hj').symm]
          | succ j =>
            rw [List.get?_cons_succ] at hj
            obtain ⟨c', hE, hget⟩ := ih rest hr j name c hj
            refine ⟨c', hE, ?_⟩
            rw [← h', List.get?_cons_succ]
            exact hget
    | dateCol d =>
      unfold numericPassCols at h
      cases hr : numericPassCols env t with
      | error e => rw [hr] at h; exact absurd h (by simp)
      | ok rest =>
        rw [hr] at h
        dsimp only at h
        injection h with h'
        cases j with
        | zero =>
          rw [List.get?_cons_zero] at hj
          injection hj with hj'
          refine ⟨Col.dateCol d, ?_, ?_⟩
          · rw [show c = Col.dateCol d from (congrArg Prod.snd hj').symm]
            rfl
          · rw [← h', List.get?_cons_zero,
              show name = name0 from (congrArg Prod.fst hj').symm]
        | succ j =>
          rw [List.get?_cons_succ] at hj
          obtain ⟨c', hE, hget⟩ := ih rest hr j name c hj
          refine ⟨c', hE, ?_⟩
          rw [← h', List.get?_cons_succ]
          exact hget
    | intCol d =>
      unfold numericPassCols at h
      cases hr : numericPassCols env t with
      | error e => rw [hr] at h; exact absurd h (by simp)
      | ok rest =>
        rw [hr] at h
        dsimp only at h
        injection h with h'
        cases j with
        | zero =>
          rw [List.get?_cons_zero] at hj
          injection hj with hj'
          refine ⟨Col.intCol d, ?_, ?_⟩
          · rw [show c = Col.intCol d from (congrArg Prod.snd hj').symm]
            rfl
          · rw [← h', List.get?_cons_zero,
              show name = name0 from (congrArg Prod.fst hj').symm]
        | succ j =>
          rw [List.get?_cons_succ] at hj
          obtain ⟨c', hE, hget⟩ := ih rest hr j name c hj
          refine ⟨c', hE, ?_⟩
          rw [← h', List.get?_cons_succ]
          exact hget
    | floatCol d =>
      unfold numericPassCols at h
      cases hr : numericPassCols env t with
      | error e => rw [hr] at h; exact absurd h (by simp)
      | ok rest =>
        rw [hr] at h
        dsimp only at h
        injection h with h'
        cases j with
        | zero =>
          rw [List.get?_cons_zero] at hj
          injection hj with hj'
          refine ⟨Col.floatCol d, ?_, ?_⟩
          · rw [show c = Col.floatCol d from (congrArg Prod.snd hj').symm]
            rfl
          · rw [← h', List.get?_cons_zero,
              show name = name0 from (congrArg Prod.fst hj').symm]
        | succ j =>
          rw [List.get?_cons_succ] at hj
          obtain ⟨c', hE, hget⟩ := ih rest hr j name c hj
          refine ⟨c', hE, ?_⟩
          rw [← h', List.get?_cons_succ]
          exact hget

/-- If some column's numeric pass raises the cast error, the whole pass
raises it. -/
theorem numericPassCols_err_of_col (env : InferEnv) :
    ∀ (l : List (String × Col)) (j : Nat) (name : String) (cells : List (Option String)),
      l.get? j = some (name, Col.strCol cells) →
      numericPassCol env cells = .error InferErr.castError →
      numericPassCols env l = .error InferErr.castError := by
  intro l
  induction l with
  | nil => intro j name cells hj _; simp at hj
  | cons p t ih =>
    intro j name cells hj herr
    obtain ⟨name0, c0⟩ := p
    cases j with
    | zero =>
      rw [List.get?_cons_zero] at hj
      injection hj with hj'
      have hc : c0 = Col.strCol cells := congrArg Prod.snd hj'
      subst hc
      unfold numericPassCols
      rw [herr]
    | succ j =>
      rw [List.get?_cons_succ] at hj
      have ht := ih j name cells hj herr
      cases c0 with
      | strCol cells0 =>
        unfold numericPassCols
        cases hn : numericPassCol env cells0 with
        | error e =>
          cases e
          rfl
        | ok r0 =>
          dsimp only
          rw [ht]
      | dateCol d =>
        unfold numericPassCols
        rw [ht]
      | intCol d =>
        unfold numericPassCols
        rw [ht]
      | floatCol d =>
        unfold numericPassCols
        rw [ht]

/-- Inversion of a successful run of `infer_types`: the numeric pass
succeeded on the date pass's output, and the result is assembled from the
two passes. -/
theorem infer_types_ok_inv (env : InferEnv) (df : DataFrame) (out : DataFrame)
    (notes : List String) (h : infer_types env df = .ok (out, notes)) :
    ∃ p2, numericPassCols env (datePassCols env df.cols).1 = .ok p2 ∧
      out = ⟨p2.1⟩ ∧ notes = (datePassCols env df.cols).2 ++ p2.2 := by
  unfold infer_types at h
  dsimp only at h
  cases hn : numericPassCols env (datePassCols env df.cols).1 with
  | error e => rw [hn] at h; exact absurd h (by simp)
  | ok p2 =>
    rw [hn] at h
    dsimp only at h
    injection h with h'
    exact ⟨p2, rfl, (congrArg Prod.fst h').symm, (congrArg Prod.snd h').symm⟩

/-- On a successful run, position `j` of the output is the two-pass image
of position `j` of the input. -/
theorem infer_ok_get? (env : InferEnv) (df : DataFrame) (out : DataFrame)
    (notes : List String) (h : infer_types env df = .ok (out, notes))
    (j : Nat) (name : String) (c : Col) (hcol : df.cols.get? j = some (name, c)) :
    ∃ c', numColTopE env (dateColTop env c) = .ok c' ∧
      out.cols.get? j = some (name, c') := by
  obtain ⟨p2, hn, hout, -⟩ := infer_types_ok_inv env df out notes h
  have hd : (datePassCols env df.cols).1.get? j = some (name, dateColTop env c) := by
    rw [datePassCols_get?, hcol]
    rfl
  obtain ⟨c', hE, hget⟩ := numericPassCols_ok_get? env _ p2 hn j name _ hd
  subst hout
  exact ⟨c', hE, hget⟩
/-- The date pass keeps the header names in order. -/
theorem datePassCols_fst (env : InferEnv) :
    ∀ (l : List (String × Col)), (datePassCols env l).1.map Prod.fst = l.map Prod.fst := by
  intro l
  induction l with
  | nil => rfl
  | cons p t ih =>
    obtain ⟨name, c⟩ := p
    cases c <;> simp [datePassCols, ih]

/-- The date pass never changes a column's cell count. -/
theorem colLen_datePassCol (env : InferEnv) (cells : List (Option String)) :
    colLen (datePassCol env cells).1 = cells.length := by
  unfold datePassCol
  dsimp only
  split_ifs <;> simp [colLen]

/-- The date pass preserves the cell count of any column. -/
theorem colLen_dateColTop (env : InferEnv) (c : Col) :
    colLen (dateColTop env c) = colLen c := by
  cases c with
  | strCol cells => exact colLen_datePassCol env cells
  | dateCol cells => rfl
  | intCol cells => rfl
  | floatCol cells => rfl

/-- Dichotomy of the date pass on one column: it converts exactly when the
sample shape test passes and at least 0.8 of all cells parse, and it
leaves the column untouched otherwise. -/
theorem datePassCol_spec (env : InferEnv) (cells : List (Option String)) :
    (ShapeTestPasses cells ∧ dateParseFracAll env cells ≥ 4/5 ∧
      datePassCol env cells =
        (Col.dateCol (cells.map (fun c => c.bind env.parseDate)), true)) ∨
    (¬ (ShapeTestPasses cells ∧ dateParseFracAll env cells ≥ 4/5) ∧
      datePassCol env cells = (Col.strCol cells, false)) := by
  by_cases h1 : ((cells.filterMap id).take 500).isEmpty = true
  · right
    constructor
    · rintro ⟨⟨hne, _⟩, _⟩
      exact hne (List.isEmpty_iff.mp h1)
    · unfold datePassCol
      rw [if_pos h1]
  · have hne : sampleOf cells ≠ [] := fun hE => h1 (List.isEmpty_iff.mpr hE)
    have hslen : (sampleOf cells).length ≠ 0 := by
      simpa [List.length_eq_zero] using hne
    have hclen : cells.length ≠ 0 := by
      intro hE
      apply hne
      show (cells.filterMap id).take 500 = []
      rw [List.length_eq_zero.mp hE]
      rfl
    by_cases h2 : ((cells.filterMap id).take 500).length <
        2 * ((cells.filterMap id).take 500).countP containsDateShape
    · by_cases h3 : 4 * cells.length ≤
          5 * ((cells.map (fun c => c.bind env.parseDate)).countP Option.isSome)
      · left
        refine ⟨⟨hne, (frac_gt_half_iff _ _ hslen).mpr h2⟩,
          (frac_ge_iff _ _ hclen).mpr h3, ?_⟩
        unfold datePassCol
        rw [if_neg h1, if_pos h2, if_pos h3]
      · right
        constructor
        · rintro ⟨_, hfr⟩
          exact h3 ((frac_ge_iff _ _ hclen).mp hfr)
        · unfold datePassCol
          rw [if_neg h1, if_pos h2, if_neg h3]
    · right
      constructor
      · rintro ⟨⟨_, hsh⟩, _⟩
        exact h2 ((frac_gt_half_iff _ _ hslen).mp hsh)
      · unfold datePassCol
        rw [if_neg h1, if_neg h2]

/-- Counting parse successes over the full column equals counting them over
the non-missing cells: missing cells never parse. -/
theorem countP_bind_eq {α : Type} (f : String → Option α) :
    ∀ (cells : List (Option String)),
      (cells.map (fun c => c.bind f)).countP Option.isSome =
        (cells.filterMap id).countP (fun s => (f s).isSome) := by
  intro cells
  induction cells with
  | nil => rfl
  | cons c t ih =>
    cases c with
    | none => simpa [List.countP_cons] using ih
    | some s => simp [List.countP_cons, ih]
/-- C8 (counterexample): a column holding the single 20-digit numeral
"12345678901234567890" passes the numeric threshold and the integrality
check — every parsed value is whole — yet its Int64 cast fails, so
`infer_types` raises instead of returning: line 85's `astype("Int64")`
raises pandas' safe-cast error for a whole value outside the Int64
range. -/
theorem c8_counterexample :
    (∀ d ∈ (numParsed envIso cellsHuge).filterMap id, IsWholeNum d) ∧
    castCells (numParsed envIso cellsHuge) = none ∧
    infer_types envIso dfHuge = .error InferErr.castError := by
  refine ⟨?_, rfl, rfl⟩
  have hall : ∀ d ∈ (numParsed envIso cellsHuge).filterMap id, d.isWhole = true := by decide
  exact fun d hd => (isWhole_iff d).mp (hall d hd)

/-- C8 (amended): `infer_types` can raise — the integer cast of line 85
raises when a whole parsed value lies outside the Int64 range — but on
every run that returns, it returns a table with the same headers in the
same order, the same column count, every column's cell count unchanged,
and each output column a positionwise derivation of the input column at
the same position (unchanged, or a cell-by-cell map), so no rows or
columns are added, dropped or reordered. -/
theorem c8_shape_preserved (env : InferEnv) (df : DataFrame) (out : DataFrame)
    (notes : List String) (h : infer_types env df = .ok (out, notes)) :
    out.cols.map Prod.fst = df.cols.map Prod.fst ∧
    (∀ j : Nat, (out.cols.get? j).map (fun p => colLen p.2) =
      (df.cols.get? j).map (fun p => colLen p.2)) ∧
    (∀ (j : Nat) (name : String) (c : Col), df.cols.get? j = some (name, c) →
      ∃ c', out.cols.get? j = some (name, c') ∧ ColDerived env c c') := by
  have hfst : out.cols.map Prod.fst = df.cols.map Prod.fst := by
    obtain ⟨p2, hn, hout, -⟩ := infer_types_ok_inv env df out notes h
    subst hout
    rw [show (DataFrame.mk p2.1).cols = p2.1 from rfl,
      numericPassCols_ok_fst env _ p2 hn, datePassCols_fst]
  have hlen : out.cols.length = df.cols.length := by
    have h1 := congrArg List.length hfst
    simpa using h1
  refine ⟨hfst, ?_, ?_⟩
  · intro j
    cases hc : df.cols.get? j with
    | none =>
      have hj : df.cols.length ≤ j := List.get?_eq_none.mp hc
      have hno : out.cols.get? j = none := List.get?_eq_none.mpr (by omega)
      rw [hno]
    | some p =>
      obtain ⟨name, c⟩ := p
      obtain ⟨c', hE, hget⟩ := infer_ok_get? env df out notes h j name c hc
      rw [hget]
      simp only [Option.map_some']
      rw [show colLen c' = colLen c from by
        rw [colLen_numColTopE env _ c' hE, colLen_dateColTop]]
  · intro j name c hc
    obtain ⟨c', hE, hget⟩ := infer_ok_get? env df out notes h j name c hc
    refine ⟨c', hget, ?_⟩
    cases c with
    | strCol cells =>
      rcases datePassCol_spec env cells with ⟨_, _, heq⟩ | ⟨_, heq⟩
      · have hdate : dateColTop env (Col.strCol cells) =
            Col.dateCol (cells.map (fun x => x.bind env.parseDate)) := by
          show (datePassCol env cells).1 = _
          rw [heq]
        rw [hdate] at hE
        dsimp only [numColTopE] at hE
        injection hE with h'
        right
        exact ⟨cells, rfl, Or.inl h'.symm⟩
      · have hdate : dateColTop env (Col.strCol cells) = Col.strCol cells := by
          show (datePassCol env cells).1 = _
          rw [heq]
        rw [hdate] at hE
        obtain ⟨nb, hn⟩ := numColTopE_str_ok env cells c' hE
        rcases numericPassCol_ok_cases env cells c' nb hn with h1 | h1 | ⟨ints, hcast, h1⟩
        · left
          rw [h1]
        · right
          exact ⟨cells, rfl, Or.inr (Or.inl h1)⟩
        · right
          exact ⟨cells, rfl, Or.inr (Or.inr ⟨ints, hcast, h1⟩)⟩
    | dateCol d =>
      dsimp only [dateColTop, numColTopE] at hE
      injection hE with h'
      left
      exact h'.symm
    | intCol d =>
      dsimp only [dateColTop, numColTopE] at hE
      injection hE with h'
      left
      exact h'.symm
    | floatCol d =>
      dsimp only [dateColTop, numColTopE] at hE
      injection hE with h'
      left
      exact h'.symm

/-- Witness for C8: a run that returns (the C1 counterexample frame passes
through unchanged) instantiates the amended shape-preservation rule. -/
theorem c8_witness :
    infer_types envIso dfC1 = .ok (dfC1, []) ∧
    (dfC1.cols.map Prod.fst = dfC1.cols.map Prod.fst ∧
     (∀ j : Nat, (dfC1.cols.get? j).map (fun p => colLen p.2) =
       (dfC1.cols.get? j).map (fun p => colLen p.2)) ∧
     (∀ (j : Nat) (name : String) (c : Col), dfC1.cols.get? j = some (name, c) →
       ∃ c', dfC1.cols.get? j = some (name, c') ∧ ColDerived envIso c c')) :=
  ⟨rfl, c8_shape_preserved envIso dfC1 dfC1 [] rfl⟩

/-- C7: a column whose cells are all missing is left as a string column by
both passes: the date pass keeps it, its own numeric pass returns it
unconverted (and cannot raise), and any successful run of `infer_types`
returns it unchanged at its position. -/
theorem c7_all_missing_skipped (env : InferEnv) (df : DataFrame) (j : Nat)
    (name : String) (cells : List (Option String))
    (hcol : df.cols.get? j = some (name, Col.strCol cells))
    (hmiss : ∀ c ∈ cells, c = none) :
    (datePassCols env df.cols).1.get? j = some (name, Col.strCol cells) ∧
    numericPassCol env cells = .ok (Col.strCol cells, none) ∧
    ∀ (out : DataFrame) (notes : List String), infer_types env df = .ok (out, notes) →
      out.cols.get? j = some (name, Col.strCol cells) := by
  have hnm : cells.filterMap id = [] := by
    rw [List.filterMap_eq_nil_iff]
    intro c hc
    exact hmiss c hc
  have hdate : datePassCol env cells = (Col.strCol cells, false) := by
    simp [datePassCol, hnm]
  have hcount : (cells.map (fun c => c.bind (fun s => env.parseNum (stripNumSeps s)))).countP
      Option.isSome = 0 := by
    rw [List.countP_eq_zero]
    intro a ha
    obtain ⟨c, hc, rfl⟩ := List.mem_map.mp ha
    rw [hmiss c hc]
    simp
  have hnum : numericPassCol env cells = .ok (Col.strCol cells, none) := by
    unfold numericPassCol
    dsimp only
    rw [if_neg]
    rintro ⟨hpos, hle⟩
    rw [hcount] at hle
    omega
  refine ⟨?_, hnum, ?_⟩
  · rw [datePassCols_get?, hcol]
    simp [dateColTop, hdate]
  · intro out notes h
    obtain ⟨c', hE, hget⟩ := infer_ok_get? env df out notes h j name _ hcol
    have hdt : dateColTop env (Col.strCol cells) = Col.strCol cells := by
      show (datePassCol env cells).1 = _
      rw [hdate]
    rw [hdt] at hE
    dsimp only [numColTopE] at hE
    rw [hnum] at hE
    dsimp only [Except.map] at hE
    injection hE with h'
    rw [hget, ← h']

/-- Witness for C7: a two-cell all-missing column passes both passes
untouched, and the whole run returns it unchanged. -/
theorem c7_witness :
    (∀ c ∈ ([none, none] : List (Option String)), c = none) ∧
    numericPassCol envIso [none, none] = .ok (Col.strCol [none, none], none) ∧
    infer_types envIso ⟨[("e", Col.strCol [none, none])]⟩ =
      .ok (⟨[("e", Col.strCol [none, none])]⟩, []) ∧
    (⟨[("e", Col.strCol [none, none])]⟩ : DataFrame).cols.get? 0 =
      some ("e", Col.strCol [none, none]) :=
  ⟨by decide,
   (c7_all_missing_skipped envIso ⟨[("e", Col.strCol [none, none])]⟩ 0 "e"
     [none, none] rfl (by decide)).2.1,
   rfl,
   (c7_all_missing_skipped envIso ⟨[("e", Col.strCol [none, none])]⟩ 0 "e"
     [none, none] rfl (by decide)).2.2 ⟨[("e", Col.strCol [none, none])]⟩ [] rfl⟩

/-- C1 (counterexample): a 10-cell column of five ISO dates and five
missing cells satisfies the claim's criterion — the shape sample test
passes and 100% of the non-missing cells parse as dates — yet the code
leaves the column as String, because line 70 of `app.py` divides by the
total cell count (5/10 = 0.5 < 0.8), not by the non-missing count. -/
theorem c1_counterexample :
    ShapeTestPasses cellsC1 ∧
    dateParseFracNonMissing envIso cellsC1 ≥ 4/5 ∧
    infer_types envIso dfC1 = .ok (dfC1, []) := by
  refine ⟨⟨by decide, ?_⟩, ?_, rfl⟩
  · rw [show (sampleOf cellsC1).countP containsDateShape = 5 from by decide,
        show (sampleOf cellsC1).length = 5 from by decide]
    rw [frac_gt_half_iff 5 5 (by norm_num)]
    norm_num
  · show frac ((nonMissing cellsC1).countP (fun s => (envIso.parseDate s).isSome))
      (nonMissing cellsC1).length ≥ 4/5
    rw [show (nonMissing cellsC1).countP (fun s => (envIso.parseDate s).isSome) = 5 from by
          decide,
        show (nonMissing cellsC1).length = 5 from by decide]
    rw [frac_ge_iff 5 5 (by norm_num)]
    norm_num

/-- C1 (amended): a string column is converted to DateTime exactly when the
date-shape sample test passes (strictly more than 0.5 of up to the first
500 non-missing cells match) and at least 0.8 of ALL of the column's cells
parse as dates, missing cells counting as parse failures — stated both for
the date pass itself and for any run of `infer_types` that returns.  The
spec's 1000-cell example (850 ISO dates, 150 missing) still converts,
since 850/1000 ≥ 0.8; and a column in which exactly 79% of the non-missing
cells parse still never converts, since the all-cell fraction is at most
79%. -/
theorem c1_datetime_rule :
    (∀ (env : InferEnv) (df : DataFrame) (j : Nat) (name : String)
        (cells : List (Option String)),
      df.cols.get? j = some (name, Col.strCol cells) →
      ((∃ dcells, (datePassCols env df.cols).1.get? j = some (name, Col.dateCol dcells)) ↔
        (ShapeTestPasses cells ∧ dateParseFracAll env cells ≥ 4/5))) ∧
    (∀ (env : InferEnv) (df : DataFrame) (j : Nat) (name : String)
        (cells : List (Option String)) (out : DataFrame) (notes : List String),
      df.cols.get? j = some (name, Col.strCol cells) →
      infer_types env df = .ok (out, notes) →
      ((∃ dcells, out.cols.get? j = some (name, Col.dateCol dcells)) ↔
        (ShapeTestPasses cells ∧ dateParseFracAll env cells ≥ 4/5))) ∧
    infer_types envIso dfBig =
      .ok (⟨[("d", Col.dateCol bigParsedCells)]⟩, ["d -> datetime"]) ∧
    (∀ (env : InferEnv) (cells : List (Option String)),
      dateParseFracNonMissing env cells = 79/100 → dateParseFracAll env cells < 4/5) := by
  refine ⟨?_, ?_, rfl, ?_⟩
  · intro env df j name cells hcol
    have hd : (datePassCols env df.cols).1.get? j =
        some (name, (datePassCol env cells).1) := by
      rw [datePassCols_get?, hcol]
      rfl
    rw [hd]
    rcases datePassCol_spec env cells with ⟨hsh, hfr, heq⟩ | ⟨hneg, heq⟩
    · constructor
      · intro _
        exact ⟨hsh, hfr⟩
      · intro _
        exact ⟨cells.map (fun c => c.bind env.parseDate), by rw [heq]⟩
    · constructor
      · rintro ⟨dcells, hdc⟩
        exfalso
        injection hdc with hpair
        have hsnd : (datePassCol env cells).1 = Col.dateCol dcells :=
          congrArg Prod.snd hpair
        rw [heq] at hsnd
        exact absurd hsnd (by simp)
      · intro hcond
        exact absurd hcond hneg
  · intro env df j name cells out notes hcol h
    obtain ⟨c', hE, hget⟩ := infer_ok_get? env df out notes h j name _ hcol
    rcases datePassCol_spec env cells with ⟨hsh, hfr, heq⟩ | ⟨hneg, heq⟩
    · have hdt : dateColTop env (Col.strCol cells) =
          Col.dateCol (cells.map (fun x => x.bind env.parseDate)) := by
        show (datePassCol env cells).1 = _
        rw [heq]
      rw [hdt] at hE
      dsimp only [numColTopE] at hE
      injection hE with h'
      constructor
      · intro _
        exact ⟨hsh, hfr⟩
      · intro _
        exact ⟨cells.map (fun x => x.bind env.parseDate), by rw [hget, ← h']⟩
    · have hdt : dateColTop env (Col.strCol cells) = Col.strCol cells := by
        show (datePassCol env cells).1 = _
        rw [heq]
      rw [hdt] at hE
      obtain ⟨nb, hn⟩ := numColTopE_str_ok env cells c' hE
      constructor
      · rintro ⟨dcells, hdc⟩
        exfalso
        rw [hget] at hdc
        injection hdc with hpair
        exact numericPassCol_ok_ne_date env cells c' nb hn dcells
          (congrArg Prod.snd hpair)
      · intro hcond
        exact absurd hcond hneg
  · intro env cells h79
    have hnm0 : (nonMissing cells).length ≠ 0 := by
      intro h0
      rw [show dateParseFracNonMissing env cells =
          frac ((nonMissing cells).countP (fun s => (env.parseDate s).isSome))
            (nonMissing cells).length from rfl, h0] at h79
      unfold frac at h79
      norm_num at h79
    have hle : (nonMissing cells).length ≤ cells.length := List.length_filterMap_le _ _
    have hlen0 : cells.length ≠ 0 := by
      have : (nonMissing cells).length ≤ cells.length := hle
      omega
    unfold dateParseFracAll
    rw [countP_bind_eq env.parseDate cells]
    calc frac ((cells.filterMap id).countP (fun s => (env.parseDate s).isSome)) cells.length
        ≤ frac ((cells.filterMap id).countP (fun s => (env.parseDate s).isSome))
            (nonMissing cells).length := by
          unfold frac
          gcongr
      _ = 79/100 := h79
      _ < 4/5 := by norm_num

/-- Witness for C1: the 1000-cell example instantiates the amended rule —
its shape test and 80%-of-all-cells threshold both hold, by applying the
rule's forward direction to the conversion the date pass performs. -/
theorem c1_witness :
    ShapeTestPasses bigDateCells ∧ dateParseFracAll envIso bigDateCells ≥ 4/5 :=
  (c1_datetime_rule.1 envIso dfBig 0 "d" bigDateCells rfl).mp
    ⟨bigParsedCells, by decide⟩

/-- C2 (counterexample): a 10-cell column of five "1" cells and five
missing cells satisfies the claim's criterion — 100% of the non-missing
cells parse as whole numbers — yet the code leaves the column as String,
because line 83 of `app.py` divides by the total cell count
(5/10 = 0.5 < 0.8), not by the non-missing count. -/
theorem c2_counterexample :
    numParseFracNonMissing envIso cellsC2 ≥ 4/5 ∧
    (∀ d ∈ (numParsed envIso cellsC2).filterMap id, IsWholeNum d) ∧
    infer_types envIso dfC2 = .ok (dfC2, []) := by
  refine ⟨?_, ?_, rfl⟩
  · show frac ((nonMissing cellsC2).countP (fun s => (envIso.parseNum (stripNumSeps s)).isSome))
      (nonMissing cellsC2).length ≥ 4/5
    rw [show (nonMissing cellsC2).countP
          (fun s => (envIso.parseNum (stripNumSeps s)).isSome) = 5 from by decide,
        show (nonMissing cellsC2).length = 5 from by decide]
    rw [frac_ge_iff 5 5 (by norm_num)]
    norm_num
  · have hall : ∀ d ∈ (numParsed envIso cellsC2).filterMap id, d.isWhole = true := by decide
    exact fun d hd => (isWhole_iff d).mp (hall d hd)

/-- C2 (amended): on a column still String when the numeric pass reaches
it, the pass strips commas and spaces from each cell and then: when the
column is non-empty, at least 0.8 of ALL its cells parse as numbers
(missing cells counting as failures) and every successfully parsed value
is whole, it converts to Integer if every whole value also fits in the
Int64 range and raises the safe-cast error otherwise; when the same
threshold passes but some parsed value is fractional, it converts to
Float; and otherwise it leaves the column String.  The spec's examples are
unchanged: `["1,234", "2,500", "100"]` becomes Integer and
`["1,234.5", "2,500", "100"]` becomes Float. -/
theorem c2_numeric_rule :
    (∀ (env : InferEnv) (l : List (String × Col)) (j : Nat) (name : String)
        (cells : List (Option String)),
      l.get? j = some (name, Col.strCol cells) →
      ((0 < cells.length ∧ numParseFracAll env cells ≥ 4/5) →
        ((∀ d ∈ (numParsed env cells).filterMap id, IsWholeNum d) →
          (∀ ints, castCells (numParsed env cells) = some ints →
            ∀ r, numericPassCols env l = .ok r →
              r.1.get? j = some (name, Col.intCol ints)) ∧
          (castCells (numParsed env cells) = none →
            numericPassCols env l = .error InferErr.castError)) ∧
        ((¬ ∀ d ∈ (numParsed env cells).filterMap id, IsWholeNum d) →
          ∀ r, numericPassCols env l = .ok r →
            r.1.get? j = some (name, Col.floatCol (numParsed env cells)))) ∧
      ((¬ (0 < cells.length ∧ numParseFracAll env cells ≥ 4/5)) →
        ∀ r, numericPassCols env l = .ok r →
          r.1.get? j = some (name, Col.strCol cells))) ∧
    infer_types envIso ⟨[("a", Col.strCol cellsInt)]⟩ =
      .ok (⟨[("a", Col.intCol [some 1234, some 2500, some 100])]⟩, ["a -> integer"]) ∧
    infer_types envIso ⟨[("a", Col.strCol cellsFloat)]⟩ =
      .ok (⟨[("a", Col.floatCol [some ⟨12345, 1⟩, some ⟨2500, 0⟩, some ⟨100, 0⟩])]⟩,
        ["a -> float"]) := by
  refine ⟨?_, rfl, rfl⟩
  intro env l j name cells hcol
  have hcommon : ∀ (c0 : Col) (nb : Option Bool), numericPassCol env cells = .ok (c0, nb) →
      ∀ r, numericPassCols env l = .ok r → r.1.get? j = some (name, c0) := by
    intro c0 nb hn r hr
    obtain ⟨c', hE, hget⟩ := numericPassCols_ok_get? env l r hr j name _ hcol
    dsimp only [numColTopE] at hE
    rw [hn] at hE
    dsimp only [Except.map] at hE
    injection hE with h'
    rw [hget, ← h']
  refine ⟨fun hc => ⟨fun hw => ⟨fun ints hcast r hr => ?_, fun hcast => ?_⟩,
    fun hnw r hr => ?_⟩, fun hc r hr => ?_⟩
  · exact hcommon _ _ (numericPassCol_int env cells ints hc hw hcast) r hr
  · exact numericPassCols_err_of_col env l j name cells hcol
      (numericPassCol_castErr env cells hc hw hcast)
  · exact hcommon _ _ (numericPassCol_float env cells hc hnw) r hr
  · exact hcommon _ _ (numericPassCol_skip env cells hc) r hr

/-- Witness for C2: the integer example instantiates the amended rule —
its threshold holds, its cast succeeds, and the rule applied to the
concrete run of the numeric pass yields the Integer column. -/
theorem c2_witness :
    (0 < cellsInt.length ∧ numParseFracAll envIso cellsInt ≥ 4/5) ∧
    castCells (numParsed envIso cellsInt) = some [some 1234, some 2500, some 100] ∧
    ([("a", Col.intCol [some 1234, some 2500, some 100])] : List (String × Col)).get? 0 =
      some ("a", Col.intCol [some 1234, some 2500, some 100]) := by
  have hfrac : numParseFracAll envIso cellsInt ≥ 4/5 := by
    show frac ((numParsed envIso cellsInt).countP Option.isSome) cellsInt.length ≥ 4/5
    rw [show (numParsed envIso cellsInt).countP Option.isSome = 3 from by decide,
        show cellsInt.length = 3 from rfl]
    rw [frac_ge_iff 3 3 (by norm_num)]
    norm_num
  have hw : ∀ d ∈ (numParsed envIso cellsInt).filterMap id, IsWholeNum d := by
    have hall : ∀ d ∈ (numParsed envIso cellsInt).filterMap id, d.isWhole = true := by decide
    exact fun d hd => (isWhole_iff d).mp (hall d hd)
  have hcast : castCells (numParsed envIso cellsInt) =
      some [some 1234, some 2500, some 100] := by decide
  refine ⟨⟨by decide, hfrac⟩, hcast, ?_⟩
  exact (((c2_numeric_rule.1 envIso [("a", Col.strCol cellsInt)] 0 "a" cellsInt rfl).1
      ⟨by decide, hfrac⟩).1 hw).1 [some 1234, some 2500, some 100] hcast
      ([("a", Col.intCol [some 1234, some 2500, some 100])], ["a -> integer"]) rfl

/-- The header assigned role `r` is the leftmost header whose predicate
priority yields `r`, regardless of which roles are already taken, as long
as `r` itself is still free. -/
theorem assignRoles_find? :
    ∀ (hs : List String) (used : List Role) (r : Role), r ∉ used →
      (assignRoles hs used).find? (fun p => p.2 == r) =
        (hs.find? (fun h => roleOf h == some r)).map (fun h => (h, r)) := by
  intro hs
  induction hs with
  | nil => intro used r _; rfl
  | cons h t ih =>
    intro used r hru
    cases hr : roleOf h with
    | none =>
      rw [show assignRoles (h :: t) used = assignRoles t used from by
        simp only [assignRoles, hr]]
      rw [List.find?_cons_of_neg _ (by simp [hr])]
      exact ih used r hru
    | some r' =>
      by_cases hmem : r' ∈ used
      · rw [show assignRoles (h :: t) used = assignRoles t used from by
          simp only [assignRoles, hr]
          rw [if_pos hmem]]
        have hne : r' ≠ r := fun he => hru (he ▸ hmem)
        rw [List.find?_cons_of_neg _ (by simp [hr, hne])]
        exact ih used r hru
      · rw [show assignRoles (h :: t) used = (h, r') :: assignRoles t (r' :: used) from by
          simp only [assignRoles, hr]
          rw [if_neg hmem]]
        by_cases heq : r' = r
        · subst heq
          rw [List.find?_cons_of_pos _ (by simp)]
          rw [List.find?_cons_of_pos _ (by simp [hr])]
          rfl
        · rw [List.find?_cons_of_neg _ (by simp [heq])]
          rw [List.find?_cons_of_neg _ (by simp [hr, heq])]
          refine ih (r' :: used) r ?_
          intro hmem2
          rcases List.mem_cons.mp hmem2 with h1 | h2
          · exact heq h1.symm
          · exact hru h2

/-- C6: the Schema Normalizer lower-cases and trims each header and tests
the predicates in fixed priority (contains "date" wins over the prefix
rules, as the trimmed, lower-cased " Open Date " shows); each role is
assigned to the leftmost header whose first matching predicate yields that
role, so with headers ["Open", "open2"] only "Open" receives the Open role
and "open2" stays unmapped. -/
theorem c6_schema_normalizer :
    normalize_headers ["Open", "open2"] = [("Open", Role.openRole)] ∧
    roleOf " Open Date " = some Role.dateRole ∧
    (∀ (hs : List String) (r : Role),
      (normalize_headers hs).find? (fun p => p.2 == r) =
        (hs.find? (fun h => roleOf h == some r)).map (fun h => (h, r))) :=
  ⟨by decide, by decide, fun hs r => assignRoles_find? hs [] r (by simp)⟩
